import Mathlib

/-!
Verification of `qks_utils.py` (`generate_frame`) against its specification.

The source function builds a synthetic 2D point cloud outlining a square:

```python
def generate_frame(num_datapoints, size_side, thickness):
    num_side = num_datapoints // 4
    avgline = np.linspace(-size_side / 2, size_side / 2, num=num_side)
    lower_window = np.random.uniform(low=-thickness / 2., high=thickness / 2.,
                                     size=int(num_side)) - size_side / 2.
    upper_window = np.random.uniform(low=-thickness / 2., high=thickness / 2.,
                                     size=int(num_side)) + size_side / 2.
    x = np.concatenate((np.tile(avgline, 2), lower_window, upper_window))
    y = np.concatenate((lower_window, upper_window, np.tile(avgline, 2)))
    return x, y
```

Rationals model the floating-point values.  The process-wide pseudorandom source
is modelled by an explicit stream `rng : ℕ → ℚ` of unit draws (numpy's
`random_sample`, each draw lying in `[0, 1)`); `np.random.uniform(low, high)`
computes `low + (high - low) * draw`, and the two `uniform` calls consume the
draws at indices `0, …, num_side - 1` and `num_side, …, 2 * num_side - 1` of
the stream, in program order.
-/

namespace QksUtils

/-- `np.linspace lo hi num`: `num` evenly spaced values from `lo` to `hi`,
both endpoints included.  For `num = 1` numpy returns the single value `lo`
(the start of the range); for `num = 0` the empty array. -/
def linspace (lo hi : ℚ) (num : ℕ) : List ℚ :=
  if num = 0 then []
  else if num = 1 then [lo]
  else (List.range num).map fun i : ℕ => lo + (i : ℚ) * (hi - lo) / ((num : ℚ) - 1)

/-- `np.random.uniform low high size` given the stream `u` of unit draws:
each sample is `low + (high - low) * u i` (numpy computes uniform samples
from `random_sample` draws exactly this way). -/
def uniform (low high : ℚ) (size : ℕ) (u : ℕ → ℚ) : List ℚ :=
  (List.range size).map fun i => low + (high - low) * u i

/-- `np.tile l reps`: the list `l` repeated `reps` times. -/
def tile (l : List ℚ) (reps : ℕ) : List ℚ :=
  (List.replicate reps l).flatten

/-- The `avgline` array of the source: `num_side` evenly spaced positions
from `-size_side / 2` to `size_side / 2`. -/
def avgline (size_side : ℚ) (num_side : ℕ) : List ℚ :=
  linspace (-size_side / 2) (size_side / 2) num_side

/-- The `lower_window` array of the source: `num_side` uniform samples in
`[-thickness/2, thickness/2]`, shifted by `-size_side / 2`. -/
def lower_window (size_side thickness : ℚ) (num_side : ℕ) (u : ℕ → ℚ) : List ℚ :=
  (uniform (-thickness / 2) (thickness / 2) num_side u).map fun v => v - size_side / 2

/-- The `upper_window` array of the source: `num_side` uniform samples in
`[-thickness/2, thickness/2]`, shifted by `+size_side / 2`. -/
def upper_window (size_side thickness : ℚ) (num_side : ℕ) (u : ℕ → ℚ) : List ℚ :=
  (uniform (-thickness / 2) (thickness / 2) num_side u).map fun v => v + size_side / 2

/-- `generate_frame` from `qks_utils.py`, with the random source made
explicit as the stream `rng` of unit draws: the `lower_window` sampling
consumes draws `0, …, num_side - 1`, the `upper_window` sampling the next
`num_side` draws. -/
def generate_frame (num_datapoints : ℕ) (size_side thickness : ℚ) (rng : ℕ → ℚ) :
    List ℚ × List ℚ :=
  let num_side := num_datapoints / 4
  let a := avgline size_side num_side
  let lw := lower_window size_side thickness num_side rng
  let uw := upper_window size_side thickness num_side fun i => rng (num_side + i)
  (tile a 2 ++ lw ++ uw, lw ++ uw ++ tile a 2)

/-- Python-level wrapper over integer `num_datapoints` (Python `//` is floor
division).  numpy raises `ValueError` when `np.linspace` receives a negative
`num` or `np.random.uniform` receives a negative `size`; this wrapper models
those library errors with `Except`. -/
def linspace_np (lo hi : ℚ) (num : ℤ) : Except String (List ℚ) :=
  if num < 0 then .error "ValueError: number of samples must be non-negative"
  else .ok (linspace lo hi num.toNat)

/-- `np.random.uniform` with an integer `size`: negative dimensions raise
`ValueError` in numpy. -/
def uniform_np (low high : ℚ) (size : ℤ) (u : ℕ → ℚ) : Except String (List ℚ) :=
  if size < 0 then .error "ValueError: negative dimensions are not allowed"
  else .ok (uniform low high size.toNat u)

/-- `generate_frame` as executed by Python on an arbitrary integer
`num_datapoints`: floor division by 4, then the numpy calls, which raise
(modelled by `Except.error`) when `num_side` is negative. -/
def generate_frame_py (num_datapoints : ℤ) (size_side thickness : ℚ) (rng : ℕ → ℚ) :
    Except String (List ℚ × List ℚ) := do
  let num_side := Int.fdiv num_datapoints 4
  let a ← linspace_np (-size_side / 2) (size_side / 2) num_side
  let lw0 ← uniform_np (-thickness / 2) (thickness / 2) num_side rng
  let uw0 ← uniform_np (-thickness / 2) (thickness / 2) num_side
    fun i => rng (num_side.toNat + i)
  let lw := lw0.map fun v => v - size_side / 2
  let uw := uw0.map fun v => v + size_side / 2
  return (tile a 2 ++ lw ++ uw, lw ++ uw ++ tile a 2)

/-! ### Basic length lemmas -/

theorem linspace_length (lo hi : ℚ) (num : ℕ) : (linspace lo hi num).length = num := by
  unfold linspace
  split
  · simp [*]
  · split
    · simp [*]
    · rw [List.length_map, List.length_range]

theorem uniform_length (low high : ℚ) (size : ℕ) (u : ℕ → ℚ) :
    (uniform low high size u).length = size := by
  simp [uniform]

theorem tile_two (l : List ℚ) : tile l 2 = l ++ l := by
  simp [tile, List.replicate]

theorem avgline_length (s : ℚ) (m : ℕ) : (avgline s m).length = m := by
  simp [avgline, linspace_length]

theorem lower_window_length (s t : ℚ) (m : ℕ) (u : ℕ → ℚ) :
    (lower_window s t m u).length = m := by
  simp [lower_window, uniform_length]

theorem upper_window_length (s t : ℚ) (m : ℕ) (u : ℕ → ℚ) :
    (upper_window s t m u).length = m := by
  simp [upper_window, uniform_length]


/-! ### Membership lemmas -/

theorem mem_linspace_bounds {lo hi : ℚ} (hle : lo ≤ hi) {n : ℕ} {v : ℚ}
    (hv : v ∈ linspace lo hi n) : lo ≤ v ∧ v ≤ hi := by
  unfold linspace at hv
  split at hv
  · simp at hv
  · split at hv
    · simp at hv
      subst hv
      exact ⟨le_refl _, hle⟩
    · simp only [List.mem_map, List.mem_range] at hv
      obtain ⟨i, hilt, rfl⟩ := hv
      rename_i h0 h1
      have hn2 : 2 ≤ n := by omega
      have hpos : (0 : ℚ) < (n : ℚ) - 1 := by
        have : (2 : ℚ) ≤ (n : ℚ) := by exact_mod_cast hn2
        linarith
      have hi1 : (i : ℚ) ≤ (n : ℚ) - 1 := by
        have : (i : ℚ) + 1 ≤ (n : ℚ) := by exact_mod_cast hilt
        linarith
      have hge : 0 ≤ (i : ℚ) * (hi - lo) / ((n : ℚ) - 1) := by
        apply div_nonneg _ (le_of_lt hpos)
        exact mul_nonneg (by positivity) (by linarith)
      have hledif : (i : ℚ) * (hi - lo) / ((n : ℚ) - 1) ≤ hi - lo := by
        rw [div_le_iff₀ hpos]
        nlinarith [mul_le_mul_of_nonneg_right hi1 (by linarith : (0 : ℚ) ≤ hi - lo)]
      constructor
      · linarith
      · linarith

theorem mem_uniform {low high : ℚ} {m : ℕ} {u : ℕ → ℚ} {v : ℚ}
    (hv : v ∈ uniform low high m u) : ∃ i, i < m ∧ v = low + (high - low) * u i := by
  simp only [uniform, List.mem_map, List.mem_range] at hv
  obtain ⟨i, him, rfl⟩ := hv
  exact ⟨i, him, rfl⟩

theorem mem_tile_two {l : List ℚ} {v : ℚ} (hv : v ∈ tile l 2) : v ∈ l := by
  rw [tile_two] at hv
  rcases List.mem_append.mp hv with h | h <;> exact h

theorem mem_lower_window {s t : ℚ} {m : ℕ} {u : ℕ → ℚ} {v : ℚ}
    (hv : v ∈ lower_window s t m u) :
    ∃ i, i < m ∧ v = -t / 2 + (t / 2 - -t / 2) * u i - s / 2 := by
  simp only [lower_window, List.mem_map] at hv
  obtain ⟨w, hw, rfl⟩ := hv
  obtain ⟨i, him, rfl⟩ := mem_uniform hw
  exact ⟨i, him, rfl⟩

theorem mem_upper_window {s t : ℚ} {m : ℕ} {u : ℕ → ℚ} {v : ℚ}
    (hv : v ∈ upper_window s t m u) :
    ∃ i, i < m ∧ v = -t / 2 + (t / 2 - -t / 2) * u i + s / 2 := by
  simp only [upper_window, List.mem_map] at hv
  obtain ⟨w, hw, rfl⟩ := hv
  obtain ⟨i, him, rfl⟩ := mem_uniform hw
  exact ⟨i, him, rfl⟩

/-! ### Length of the returned sequences -/

theorem gf_fst_length (n : ℕ) (s t : ℚ) (u : ℕ → ℚ) :
    (generate_frame n s t u).1.length = 4 * (n / 4) := by
  simp [generate_frame, tile_two, avgline_length, lower_window_length, upper_window_length]
  omega

theorem gf_snd_length (n : ℕ) (s t : ℚ) (u : ℕ → ℚ) :
    (generate_frame n s t u).2.length = 4 * (n / 4) := by
  simp [generate_frame, tile_two, avgline_length, lower_window_length, upper_window_length]
  omega


/-! ### Claim theorems -/

theorem gf_eval_8_2_0 (u : ℕ → ℚ) :
    generate_frame 8 2 0 u =
      ([-1, 1, -1, 1, -1, -1, 1, 1], [-1, -1, 1, 1, -1, 1, -1, 1]) := by
  simp [generate_frame, avgline, lower_window, upper_window, uniform, linspace, tile,
    List.range_succ]
  norm_num

/-- C1 counterexample: at `num_datapoints = 8`, `size_side = 2`,
`thickness = 0` the returned `x` is NOT the list
`[-1, 1, -1, 1, -1, 1, -1, 1]` stated by the specification's concrete
scenario (shown for the all-zero draw stream; with `thickness = 0` the
draws do not matter). -/
theorem generate_frame_8_2_0_x_ne_spec :
    (generate_frame 8 2 0 fun _ => 0).1 ≠ [-1, 1, -1, 1, -1, 1, -1, 1] := by
  rw [gf_eval_8_2_0]
  intro h
  simp at h
  norm_num at h

/-- C1 (amended): `generate_frame(8, 2.0, 0.0)` returns
`x = [-1, 1, -1, 1, -1, -1, 1, 1]` (avgline twice, then the lower and
upper window arrays) and `y = [-1, -1, 1, 1, -1, 1, -1, 1]`, for every
draw stream. -/
theorem generate_frame_8_2_0_eval (u : ℕ → ℚ) :
    generate_frame 8 2 0 u =
      ([-1, 1, -1, 1, -1, -1, 1, 1], [-1, -1, 1, 1, -1, 1, -1, 1]) :=
  gf_eval_8_2_0 u

/-- C2: the returned `x` is `avgline ++ avgline ++ lower_window ++
upper_window` and the returned `y` is `lower_window ++ upper_window ++
avgline ++ avgline`, where the upper window consumes the draws after the
lower window's. -/
theorem generate_frame_concat_order (n : ℕ) (s t : ℚ) (u : ℕ → ℚ) :
    (generate_frame n s t u).1 =
      avgline s (n / 4) ++ avgline s (n / 4) ++ lower_window s t (n / 4) u ++
        upper_window s t (n / 4) (fun i => u (n / 4 + i)) ∧
    (generate_frame n s t u).2 =
      lower_window s t (n / 4) u ++ upper_window s t (n / 4) (fun i => u (n / 4 + i)) ++
        avgline s (n / 4) ++ avgline s (n / 4) := by
  constructor <;> simp [generate_frame, tile_two, List.append_assoc]

/-- C3: the two returned sequences always have equal length, namely
`4 * (num_datapoints / 4)`. -/
theorem generate_frame_length (n : ℕ) (s t : ℚ) (u : ℕ → ℚ) :
    (generate_frame n s t u).1.length = (generate_frame n s t u).2.length ∧
    (generate_frame n s t u).1.length = 4 * (n / 4) := by
  rw [gf_fst_length, gf_snd_length]
  exact ⟨rfl, rfl⟩


/-- C4: with `size_side > 0`, `thickness ≥ 0` and every unit draw in
`[0, 1]`, every element of the returned `x` and of the returned `y` lies
in `[-size_side/2 - thickness/2, size_side/2 + thickness/2]`. -/
theorem generate_frame_containment (n : ℕ) (s t : ℚ) (u : ℕ → ℚ)
    (hs : 0 < s) (ht : 0 ≤ t) (hu : ∀ i, 0 ≤ u i ∧ u i ≤ 1) :
    ∀ v, (v ∈ (generate_frame n s t u).1 ∨ v ∈ (generate_frame n s t u).2) →
      -s / 2 - t / 2 ≤ v ∧ v ≤ s / 2 + t / 2 := by
  have havg : ∀ v ∈ avgline s (n / 4), -s / 2 - t / 2 ≤ v ∧ v ≤ s / 2 + t / 2 := by
    intro v hv
    have := mem_linspace_bounds (by linarith : -s / 2 ≤ s / 2) hv
    constructor <;> linarith [this.1, this.2]
  have hlow : ∀ w : ℕ → ℚ, ∀ v ∈ lower_window s t (n / 4) w,
      (∀ i, 0 ≤ w i ∧ w i ≤ 1) → -s / 2 - t / 2 ≤ v ∧ v ≤ s / 2 + t / 2 := by
    intro w v hv hw
    obtain ⟨i, -, rfl⟩ := mem_lower_window hv
    have h1 := mul_nonneg (by linarith : (0 : ℚ) ≤ t / 2 - -t / 2) (hw i).1
    have h2 := mul_le_of_le_one_right (by linarith : (0 : ℚ) ≤ t / 2 - -t / 2) (hw i).2
    constructor <;> nlinarith
  have hupp : ∀ w : ℕ → ℚ, ∀ v ∈ upper_window s t (n / 4) w,
      (∀ i, 0 ≤ w i ∧ w i ≤ 1) → -s / 2 - t / 2 ≤ v ∧ v ≤ s / 2 + t / 2 := by
    intro w v hv hw
    obtain ⟨i, -, rfl⟩ := mem_upper_window hv
    have h1 := mul_nonneg (by linarith : (0 : ℚ) ≤ t / 2 - -t / 2) (hw i).1
    have h2 := mul_le_of_le_one_right (by linarith : (0 : ℚ) ≤ t / 2 - -t / 2) (hw i).2
    constructor <;> nlinarith
  intro v hv
  have hshift : ∀ i : ℕ, 0 ≤ u (n / 4 + i) ∧ u (n / 4 + i) ≤ 1 := fun i => hu _
  rcases hv with hv | hv <;>
    simp only [generate_frame, List.mem_append] at hv
  · rcases hv with (hv | hv) | hv
    · exact havg _ (mem_tile_two hv)
    · exact hlow u _ hv hu
    · exact hupp _ _ hv hshift
  · rcases hv with (hv | hv) | hv
    · exact hlow u _ hv hu
    · exact hupp _ _ hv hshift
    · exact havg _ (mem_tile_two hv)

/-- C4 witness: the containment theorem applied at `num_datapoints = 8`,
`size_side = 2`, `thickness = 1`, the constant draw stream `1/2`, and the
element `-1` of the returned `x`. -/
theorem generate_frame_containment_witness :
    -(2 : ℚ) / 2 - 1 / 2 ≤ -1 ∧ (-1 : ℚ) ≤ 2 / 2 + 1 / 2 :=
  generate_frame_containment 8 2 1 (fun _ => 1 / 2) (by norm_num) (by norm_num)
    (fun i => by norm_num) (-1)
    (Or.inl (by
      simp [generate_frame, avgline, lower_window, upper_window, uniform, linspace, tile,
        List.range_succ]))


/-- C5: with `thickness = 0`, every element of the returned `x` and `y`
equals `size_side / 2`, `-size_side / 2`, or one of the `avgline`
values. -/
theorem generate_frame_zero_thickness (n : ℕ) (s : ℚ) (u : ℕ → ℚ) :
    ∀ v, (v ∈ (generate_frame n s 0 u).1 ∨ v ∈ (generate_frame n s 0 u).2) →
      v = s / 2 ∨ v = -s / 2 ∨ v ∈ avgline s (n / 4) := by
  have hlow : ∀ w : ℕ → ℚ, ∀ v ∈ lower_window s 0 (n / 4) w, v = -s / 2 := by
    intro w v hv
    obtain ⟨i, -, rfl⟩ := mem_lower_window hv
    ring
  have hupp : ∀ w : ℕ → ℚ, ∀ v ∈ upper_window s 0 (n / 4) w, v = s / 2 := by
    intro w v hv
    obtain ⟨i, -, rfl⟩ := mem_upper_window hv
    ring
  intro v hv
  rcases hv with hv | hv <;>
    simp only [generate_frame, List.mem_append] at hv
  · rcases hv with (hv | hv) | hv
    · exact Or.inr (Or.inr (mem_tile_two hv))
    · exact Or.inr (Or.inl (hlow u _ hv))
    · exact Or.inl (hupp _ _ hv)
  · rcases hv with (hv | hv) | hv
    · exact Or.inr (Or.inl (hlow u _ hv))
    · exact Or.inl (hupp _ _ hv)
    · exact Or.inr (Or.inr (mem_tile_two hv))

/-- C5 witness: the zero-thickness theorem applied at
`num_datapoints = 8`, `size_side = 2`, the constant draw stream `1/3`,
and the element `-1` of the returned `x`. -/
theorem generate_frame_zero_thickness_witness :
    (-1 : ℚ) = 2 / 2 ∨ (-1 : ℚ) = -2 / 2 ∨ (-1 : ℚ) ∈ avgline 2 (8 / 4) :=
  generate_frame_zero_thickness 8 2 (fun _ => 1 / 3) (-1)
    (Or.inl (by
      simp [generate_frame, avgline, lower_window, upper_window, uniform, linspace, tile,
        List.range_succ]))

/-- C6: for `num_datapoints < 4` both returned sequences are empty. -/
theorem generate_frame_empty (n : ℕ) (s t : ℚ) (u : ℕ → ℚ) (h : n < 4) :
    (generate_frame n s t u).1 = [] ∧ (generate_frame n s t u).2 = [] := by
  have h4 : n / 4 = 0 := Nat.div_eq_of_lt h
  simp [generate_frame, avgline, lower_window, upper_window, uniform, linspace, tile, h4]

/-- C6 witness: the empty-output theorem applied at `num_datapoints = 3`. -/
theorem generate_frame_empty_witness :
    (generate_frame 3 2 1 fun _ => 0).1 = [] ∧ (generate_frame 3 2 1 fun _ => 0).2 = [] :=
  generate_frame_empty 3 2 1 (fun _ => 0) (by norm_num)


/-- C7 counterexample: `num_datapoints = -1` is a numeric input on which
the function raises: `num_side = -1 // 4 = -1` (Python floor division)
and `np.linspace` rejects a negative sample count. -/
theorem generate_frame_py_neg_raises :
    generate_frame_py (-1) 2 0 (fun _ => 0) =
      Except.error "ValueError: number of samples must be non-negative" := by
  rfl

/-- C7 (amended): for every integer `num_datapoints ≥ 0` and all real
`size_side` and `thickness`, `generate_frame` completes without raising
and returns the pure result. -/
theorem generate_frame_py_ok (n : ℤ) (hn : 0 ≤ n) (s t : ℚ) (u : ℕ → ℚ) :
    generate_frame_py n s t u = Except.ok (generate_frame n.toNat s t u) := by
  obtain ⟨m, rfl⟩ := Int.eq_ofNat_of_zero_le hn
  have hf : Int.fdiv (m : ℤ) 4 = ((m / 4 : ℕ) : ℤ) := by
    rw [Int.fdiv_eq_ediv _ (by norm_num)]
    exact (Int.ofNat_ediv m 4).symm
  have hneg : ¬ (((m / 4 : ℕ) : ℤ) < 0) := not_lt.mpr (Int.natCast_nonneg _)
  simp only [generate_frame_py, hf, linspace_np, uniform_np, if_neg hneg,
    Int.toNat_natCast, generate_frame]
  rfl

/-- C7 witness: the no-error theorem applied at `num_datapoints = 8`. -/
theorem generate_frame_py_ok_witness :
    (0 : ℤ) ≤ 8 ∧
    generate_frame_py 8 2 0 (fun _ => 0) =
      Except.ok (generate_frame (8 : ℤ).toNat 2 0 fun _ => 0) :=
  ⟨by norm_num, generate_frame_py_ok 8 (by norm_num) 2 0 fun _ => 0⟩

/-- C8: when `4 ≤ num_datapoints < 8` (so `num_side = 1`), `avgline` is
the single value `-size_side / 2`, and the four returned points carry it
as the x-coordinate of the first two and the y-coordinate of the last
two. -/
theorem generate_frame_one_per_side (n : ℕ) (s t : ℚ) (u : ℕ → ℚ)
    (h4 : 4 ≤ n) (h8 : n < 8) :
    avgline s (n / 4) = [-s / 2] ∧
    (generate_frame n s t u).1.length = 4 ∧
    (generate_frame n s t u).1.getD 0 0 = -s / 2 ∧
    (generate_frame n s t u).1.getD 1 0 = -s / 2 ∧
    (generate_frame n s t u).2.getD 2 0 = -s / 2 ∧
    (generate_frame n s t u).2.getD 3 0 = -s / 2 := by
  have h1 : n / 4 = 1 := by omega
  refine ⟨?_, ?_, ?_, ?_, ?_, ?_⟩ <;>
    simp [generate_frame, avgline, linspace, lower_window, upper_window, uniform, tile,
      List.range_succ, h1]

/-- C8 witness: the single-point theorem applied at `num_datapoints = 5`,
`size_side = 2`, `thickness = 1`, constant draw stream `1/2`. -/
theorem generate_frame_one_per_side_witness :
    avgline 2 (5 / 4) = [-(2 : ℚ) / 2] ∧
    (generate_frame 5 2 1 fun _ => 1 / 2).1.length = 4 ∧
    (generate_frame 5 2 1 fun _ => 1 / 2).1.getD 0 0 = -(2 : ℚ) / 2 ∧
    (generate_frame 5 2 1 fun _ => 1 / 2).1.getD 1 0 = -(2 : ℚ) / 2 ∧
    (generate_frame 5 2 1 fun _ => 1 / 2).2.getD 2 0 = -(2 : ℚ) / 2 ∧
    (generate_frame 5 2 1 fun _ => 1 / 2).2.getD 3 0 = -(2 : ℚ) / 2 :=
  generate_frame_one_per_side 5 2 1 (fun _ => 1 / 2) (by norm_num) (by norm_num)

theorem uniform_congr {low high : ℚ} {m : ℕ} {u v : ℕ → ℚ}
    (h : ∀ i < m, u i = v i) : uniform low high m u = uniform low high m v :=
  List.map_congr_left fun i hi => by rw [h i (List.mem_range.mp hi)]

/-- C9: two calls that consume identical streams of random draws (the
`2 * num_side` draws actually used) produce identical output. -/
theorem generate_frame_deterministic (n : ℕ) (s t : ℚ) (u v : ℕ → ℚ)
    (h : ∀ i < 2 * (n / 4), u i = v i) :
    generate_frame n s t u = generate_frame n s t v := by
  have h1 : uniform (-t / 2) (t / 2) (n / 4) u = uniform (-t / 2) (t / 2) (n / 4) v :=
    uniform_congr fun i hi => h i (by omega)
  have h2 : uniform (-t / 2) (t / 2) (n / 4) (fun i => u (n / 4 + i)) =
      uniform (-t / 2) (t / 2) (n / 4) (fun i => v (n / 4 + i)) :=
    uniform_congr fun i hi => h _ (by omega)
  simp only [generate_frame, lower_window, upper_window, h1, h2]

/-- C9 witness: two streams that agree on the four consumed draws but
differ beyond them give identical output at `num_datapoints = 8`. -/
theorem generate_frame_deterministic_witness :
    (∀ i : ℕ, i < 2 * (8 / 4) → (if i < 4 then (i : ℚ) / 10 else 5) =
      (if i < 4 then (i : ℚ) / 10 else 7)) ∧
    generate_frame 8 2 1 (fun j => if j < 4 then (j : ℚ) / 10 else 5) =
      generate_frame 8 2 1 (fun j => if j < 4 then (j : ℚ) / 10 else 7) :=
  ⟨fun i hi => by simp [show i < 4 by omega],
   generate_frame_deterministic 8 2 1 _ _
     (fun i hi => by simp [show i < 4 by omega])⟩

theorem gf_snd_eq_rotate (n : ℕ) (s t : ℚ) (u : ℕ → ℚ) :
    (generate_frame n s t u).2 = (generate_frame n s t u).1.rotate (2 * (n / 4)) := by
  have hT : (tile (avgline s (n / 4)) 2).length = 2 * (n / 4) := by
    rw [tile_two, List.length_append, avgline_length]
    omega
  simp only [generate_frame]
  rw [List.append_assoc (tile (avgline s (n / 4)) 2), ← hT, List.rotate_append_length_eq]

theorem getD_rotate (l : List ℚ) (k i : ℕ) (hi : i < l.length) :
    (l.rotate k).getD i 0 = l.getD ((i + k) % l.length) 0 := by
  have h1 : i < (l.rotate k).length := by
    rw [List.length_rotate]
    exact hi
  have h2 : (i + k) % l.length < l.length := Nat.mod_lt _ (by omega)
  rw [List.getD_eq_getElem _ _ h1, List.getD_eq_getElem _ _ h2, List.getElem_rotate]

/-- C10: when the output is non-empty, the returned `y` is the returned
`x` rotated cyclically by `2 * num_side` positions. -/
theorem generate_frame_rotation (n : ℕ) (s t : ℚ) (u : ℕ → ℚ) (h : 0 < n / 4) :
    ∀ i < 4 * (n / 4),
      (generate_frame n s t u).2.getD i 0 =
        (generate_frame n s t u).1.getD ((i + 2 * (n / 4)) % (4 * (n / 4))) 0 := by
  intro i hi
  have hx := gf_fst_length n s t u
  rw [gf_snd_eq_rotate, getD_rotate _ _ _ (by rw [hx]; exact hi), hx]

/-- C10 witness: the rotation theorem applied at `num_datapoints = 8`,
`size_side = 2`, `thickness = 0`, index `0`. -/
theorem generate_frame_rotation_witness :
    0 < 8 / 4 ∧
    (generate_frame 8 2 0 fun _ => 0).2.getD 0 0 =
      (generate_frame 8 2 0 fun _ => 0).1.getD ((0 + 2 * (8 / 4)) % (4 * (8 / 4))) 0 :=
  ⟨by norm_num, generate_frame_rotation 8 2 0 (fun _ => 0) (by norm_num) 0 (by norm_num)⟩

end QksUtils
